import Mathlib

set_option linter.unusedVariables false

/-!
Shallow embedding of the template-matching engine of `aah-cv`
(`src/packages/aah-cv/src/lib.rs` and
`src/packages/aah-cv/src/template_matching.rs`).

Conventions of the embedding:

* `f32`/`f64` values are modelled as exact rationals (`ℚ`); `u32`/`usize`
  indices and dimensions as `ℕ`.  Where a claim depends on an `f64` square
  root, the development is parametrised over an arbitrary square-root
  function `sqrtf : ℚ → ℚ`, because the claims in question compare two
  expressions built from the *same* square root.
* A Rust `panic!` (including an arithmetic-underflow panic of unsigned
  subtraction with debug assertions, and `Option::unwrap` on `None`) is
  modelled by the `Panics.panicked` constructor.  It is *not* a typed
  error value in the source: the source functions return plain
  `Image`/`Array2`, never a `Result`.
* The GPU shader (`shaders/matching.wgsl`), the `utils` module
  (`image_mean`, `square_sum`) and the external `fftconvolve::fftcorrelate`
  are not under `src/`; the definitions that stand in for them carry a
  `Modelled from the spec:` doc comment and follow the specification text.
* `wgpu` device state is modelled by the fields of `TemplateMatcher` that
  the source reads or writes; buffer *contents* are always rewritten by
  `match_template` (both branches of the caching logic write the data),
  so the dispatched computation is evaluated on the current arguments.
-/

/-- Outcome of running a piece of Rust code that may `panic!`.
`panicked` models a Rust panic (process-aborting, not a typed error
value that a caller could match on). -/
inductive Panics (α : Type) where
  | ok (a : α) : Panics α
  | panicked (msg : String) : Panics α
deriving DecidableEq

/-- Sequencing of possibly-panicking computations: a panic propagates. -/
def Panics.bind {α β : Type} : Panics α → (α → Panics β) → Panics β
  | .ok a, f => f a
  | .panicked m, _ => .panicked m

/-- The `MatchTemplateMethod` enum of `lib.rs`. -/
inductive MatchTemplateMethod where
  | SumOfAbsoluteErrors
  | SumOfSquaredErrors
  | CrossCorrelation
  | CCOEFF
  | CCOEFF_NORMED
deriving DecidableEq

/-- The `Image` buffer of `lib.rs`: a row-major 2-D grid of `f32`
(data, width, height).  The `Cow` owned/borrowed distinction is
irrelevant to values and is dropped. -/
structure Image where
  data : List ℚ
  width : ℕ
  height : ℕ
deriving DecidableEq

/-- Pixel read `data[y * width + x]`, as used throughout `lib.rs`
(`find_matches`, `find_extremes`, the shader index convention).  In-range
accesses (the only ones the source performs on well-formed images) are
modelled exactly; the default `0` stands for the out-of-range panic that
never fires under the theorems' hypotheses. -/
def Image.pix (img : Image) (x y : ℕ) : ℚ :=
  img.data.getD (y * img.width + x) 0

/-- Translation of `ImageBuffer::from_pixel(w, h, v)`: a constant image. -/
def Image.const (w h : ℕ) (v : ℚ) : Image :=
  ⟨List.replicate (h * w) v, w, h⟩

/-- Translation of `impl Add for Image`: elementwise sum via `zip` (no dimension check;
the iteration stops at the shorter buffer), dimensions taken from `self`. -/
def Image.add (a b : Image) : Image :=
  ⟨List.zipWith (· + ·) a.data b.data, a.width, a.height⟩

/-- Translation of `impl Sub for Image`: elementwise difference via `zip` (no dimension
check), dimensions taken from `self`. -/
def Image.sub (a b : Image) : Image :=
  ⟨List.zipWith (· - ·) a.data b.data, a.width, a.height⟩

/-- Translation of `impl Mul<Image> for Image`: elementwise product via `zip` (no
dimension check), dimensions taken from `self`. -/
def Image.mul (a b : Image) : Image :=
  ⟨List.zipWith (· * ·) a.data b.data, a.width, a.height⟩

/-- Translation of `impl Mul<f32> for Image`: scale every element. -/
def Image.mulScalar (a : Image) (r : ℚ) : Image :=
  ⟨a.data.map (· * r), a.width, a.height⟩

/-- Translation of `impl Div<f32> for Image`: defined in the source as `self * (1.0 / rhs)`. -/
def Image.divScalar (a : Image) (r : ℚ) : Image :=
  a.mulScalar (1 / r)

/-- Modelled from the spec: `utils::image_mean` (the `utils` module is not
under `src/`).  Arithmetic mean of all pixels, `sum / len`. -/
def image_mean (img : Image) : ℚ :=
  (img.data.sum) / (img.data.length : ℚ)

/-- Modelled from the spec: `utils::square_sum` (the `utils` module is not
under `src/`).  The template's energy, `Σ v²`. -/
def square_sum (img : Image) : ℚ :=
  (img.data.map (fun v => v * v)).sum

/-- Modelled from the spec: one output cell of the compute shader
(`shaders/matching.wgsl` is not under `src/`).  Spec §4.4: the kernel
slides the template over the frame, one output value per valid offset;
`SumOfAbsoluteErrors`/`SumOfSquaredErrors` are error sums and
`CrossCorrelation` is the sum of products.  Only the three raw methods
have shader entry points; for the derived methods pipeline creation
panics before any dispatch, so the catch-all `0` is unreachable. -/
def shaderCell (method : MatchTemplateMethod) (input tmpl : Image) (y x : ℕ) : ℚ :=
  match method with
  | .SumOfAbsoluteErrors =>
      ∑ j ∈ Finset.range tmpl.height, ∑ i ∈ Finset.range tmpl.width,
        |input.pix (x + i) (y + j) - tmpl.pix i j|
  | .SumOfSquaredErrors =>
      ∑ j ∈ Finset.range tmpl.height, ∑ i ∈ Finset.range tmpl.width,
        (input.pix (x + i) (y + j) - tmpl.pix i j) *
          (input.pix (x + i) (y + j) - tmpl.pix i j)
  | .CrossCorrelation =>
      ∑ j ∈ Finset.range tmpl.height, ∑ i ∈ Finset.range tmpl.width,
        input.pix (x + i) (y + j) * tmpl.pix i j
  | _ => 0

/-- Row-major flattening of a `rh × rw` grid of values, as the shader
writes `result[y * result_w + x]`. -/
def gridData (rw rh : ℕ) (f : ℕ → ℕ → ℚ) : List ℚ :=
  (List.range (rh * rw)).map fun i => f (i / rw) (i % rw)

/-- The mutable session state of `TemplateMatcher` (`lib.rs`).  Device,
queue, shader module and layouts are construction-time constants with no
observable value content; the cached-state fields the source branches on
are kept.  `staging` holds the contents of the staging buffer after the
dispatched computation (the single-shot async readback of the source is
modelled synchronously, per spec §5: collection blocks until the device
signals completion). -/
structure TemplateMatcher where
  lastMethod : Option MatchTemplateMethod
  hasPipeline : Bool
  lastInputSize : ℕ × ℕ
  lastTemplateSize : ℕ × ℕ
  lastResultSize : ℕ × ℕ
  inputBuf : Option Image
  templateBuf : Option Image
  hasResultBuf : Bool
  staging : Option (List ℚ)
  matchingOngoing : Bool
deriving DecidableEq

/-- Translation of `TemplateMatcher::new()`: fresh session, nothing cached, no
computation outstanding. -/
def TemplateMatcher.new : TemplateMatcher :=
  ⟨none, false, (0, 0), (0, 0), (0, 0), none, none, false, none, false⟩

/-- Translation of `TemplateMatcher::wait_for_result`.  Returns `None` if no matching
was started; otherwise clears `matching_ongoing` and returns the staging
buffer contents as an image of dimensions `last_result_size`.  The
`replicate 0` default mirrors the zero-filled fallback of a failed
buffer map; on every reachable dispatched state `staging` is `some`. -/
def TemplateMatcher.wait_for_result (s : TemplateMatcher) :
    Option Image × TemplateMatcher :=
  if s.matchingOngoing = false then (none, s)
  else
    let s' := { s with matchingOngoing := false }
    let rw := s.lastResultSize.1
    let rh := s.lastResultSize.2
    let d := match s.staging with
      | some d => d
      | none => List.replicate (rw * rh) 0
    (some ⟨d, rw, rh⟩, s')

/-- Translation of `TemplateMatcher::match_template`.  Collects (and discards) a pending
result, (re)compiles the pipeline when the method changed — panicking
`"not implemented yet"` for the two derived methods, which have no shader
entry point — refreshes the cached input/template buffers (contents are
written in both branches; only allocation is skipped when sizes are
unchanged), computes `result_w = input.w - template.w + 1` (a `u32`
subtraction that panics on underflow when the template is larger than the
input), reallocates result/staging buffers when any size changed, and
dispatches the kernel, leaving the result in the staging buffer with
`matching_ongoing` set. -/
def TemplateMatcher.match_template (s0 : TemplateMatcher)
    (input tmpl : Image) (method : MatchTemplateMethod) :
    Panics TemplateMatcher :=
  let s := if s0.matchingOngoing then (s0.wait_for_result).2 else s0
  let pip : Panics TemplateMatcher :=
    if s.hasPipeline = false ∨ s.lastMethod ≠ some method then
      match method with
      | .SumOfAbsoluteErrors | .SumOfSquaredErrors | .CrossCorrelation =>
          Panics.ok { s with lastMethod := some method, hasPipeline := true }
      | _ => Panics.panicked "not implemented yet"
    else Panics.ok s
  pip.bind fun s =>
    let inputSize := (input.width, input.height)
    let sc1 : TemplateMatcher × Bool :=
      if s.inputBuf = none ∨ s.lastInputSize ≠ inputSize then
        ({ s with lastInputSize := inputSize, inputBuf := some input }, true)
      else ({ s with inputBuf := some input }, false)
    let s := sc1.1
    let tmplSize := (tmpl.width, tmpl.height)
    let sc2 : TemplateMatcher × Bool :=
      if s.templateBuf = none ∨ s.lastTemplateSize ≠ tmplSize then
        ({ s with lastTemplateSize := tmplSize, templateBuf := some tmpl }, true)
      else ({ s with templateBuf := some tmpl }, false)
    let s := sc2.1
    if tmpl.width ≤ input.width ∧ tmpl.height ≤ input.height then
      let resultWidth := input.width - tmpl.width + 1
      let resultHeight := input.height - tmpl.height + 1
      let buffersChanged := sc1.2 || sc2.2
      let s := if buffersChanged then
          { s with lastResultSize := (resultWidth, resultHeight),
                   hasResultBuf := true }
        else s
      Panics.ok { s with
        staging := some (gridData resultWidth resultHeight
          (shaderCell method input tmpl)),
        matchingOngoing := true }
    else Panics.panicked "attempt to subtract with overflow"

/-- Translation of `ccorr` (`lib.rs`): fresh matcher, dispatch `CrossCorrelation`, then
`wait_for_result().unwrap()`. -/
def ccorr (input tmpl : Image) : Panics Image :=
  (TemplateMatcher.new.match_template input tmpl .CrossCorrelation).bind
    fun s =>
      match (s.wait_for_result).1 with
      | some img => Panics.ok img
      | none => Panics.panicked "called Option::unwrap on a None value"

/-- Translation of `ccoeff` (`lib.rs`).  Builds the all-zero mask, the local-mean-removed
frame `ic` (computed but never used afterwards), the mean-subtracted
template `tc`, and `res = ccorr(I, tc) + ccorr(I, mask) * (-mean(tc))`.
In the `normed` branch the template energy `tc_sq_sum` is computed but the
normalisation division is absent: both branches return `res` unchanged. -/
def ccoeff (input tmpl : Image) (normed : Bool) : Panics Image :=
  let mask := Image.const tmpl.width tmpl.height 0
  let n : ℚ := ((tmpl.width * tmpl.height : ℕ) : ℚ)
  (ccorr input mask).bind fun cim =>
    let i : Image := input
    let ic := i.sub (cim.divScalar n)
    let mean_t := image_mean tmpl
    let tc : Image := ⟨tmpl.data.map (fun p => p - mean_t), tmpl.width, tmpl.height⟩
    (ccorr input tc).bind fun ccorr_i_tc =>
      (ccorr input mask).bind fun ccorr_i_m =>
        let mean_tc := image_mean tc
        let res := ccorr_i_tc.add (ccorr_i_m.mulScalar (-mean_tc))
        if normed then
          let tc_sq_sum := square_sum tc
          Panics.ok res
        else
          Panics.ok res

/-- The free function `match_template` of `lib.rs`: `CCOEFF` and
`CCOEFF_NORMED` go to `ccoeff`; every other method constructs a fresh
matcher and dispatches — passing `MatchTemplateMethod::CCOEFF`, not the
requested method — then collects with `unwrap`. -/
def match_template (input tmpl : Image) (method : MatchTemplateMethod) :
    Panics Image :=
  match method with
  | .CCOEFF => ccoeff input tmpl false
  | .CCOEFF_NORMED => ccoeff input tmpl true
  | _ =>
      (TemplateMatcher.new.match_template input tmpl .CCOEFF).bind fun s =>
        match (s.wait_for_result).1 with
        | some img => Panics.ok img
        | none => Panics.panicked "called Option::unwrap on a None value"

/-- The `Match` record of `lib.rs`: grid location `(x, y)` and score. -/
structure Match where
  location : ℕ × ℕ
  value : ℚ
deriving DecidableEq

/-- The proximity test of `find_matches`:
`|m.location.0 - x| < template_width && |m.location.1 - y| < template_height`
(computed on `i32`, absolute value taken as `u32`). -/
def isNear (tw th x y : ℕ) (m : Match) : Prop :=
  ((m.location.1 : ℤ) - (x : ℤ)).natAbs < tw ∧
    ((m.location.2 : ℤ) - (y : ℤ)).natAbs < th

instance (tw th x y : ℕ) (m : Match) : Decidable (isNear tw th x y m) :=
  show Decidable (_ ∧ _) from inferInstance

/-- The `matches.iter_mut().rev().find(..)` step of `find_matches`: walk
the registered matches from the most recent to the oldest; on the first
one near `(x, y)`, replace it by the new cell when the new value is
strictly greater (`value > m.value`) and stop.  `none` when no registered
match is near. -/
def try_merge (tw th x y : ℕ) (v : ℚ) : List Match → Option (List Match)
  | [] => none
  | m :: rest =>
    match try_merge tw th x y v rest with
    | some rest' => some (m :: rest')
    | none =>
        if isNear tw th x y m then
          some ((if m.value < v then ⟨(x, y), v⟩ else m) :: rest)
        else none

/-- The body of the `find_matches` scan for one cell: accept when
`value < threshold`; then either merge into the nearest (most recently
registered) match or push a new one. -/
def match_step (tw th : ℕ) (thr : ℚ) (ms : List Match) (x y : ℕ) (v : ℚ) :
    List Match :=
  if v < thr then
    match try_merge tw th x y v ms with
    | some ms' => ms'
    | none => ms ++ [⟨(x, y), v⟩]
  else ms

/-- Translation of `find_matches` (`lib.rs`): raster scan (`y` outer, `x` inner) of the
score grid, threshold acceptance plus greedy suppression via `match_step`. -/
def find_matches (input : Image) (template_width template_height : ℕ)
    (threshold : ℚ) : List Match :=
  (List.range input.height).foldl (fun ms y =>
    (List.range input.width).foldl (fun ms x =>
      match_step template_width template_height threshold ms x y
        (input.pix x y)) ms) []

/-- The `imageproc` `Extremes` record returned by both `find_extremes`
implementations. -/
structure Extremes where
  min_value : ℚ
  max_value : ℚ
  min_value_location : ℕ × ℕ
  max_value_location : ℕ × ℕ
deriving DecidableEq

/-- The exact rational value of `f32::MAX` (initial `min_value`). -/
def f32MAX : ℚ := (2 ^ 24 - 1) * 2 ^ 104

/-- The exact rational value of `f32::MIN = -f32::MAX` (initial
`max_value`). -/
def f32MIN : ℚ := -f32MAX

/-- One step of the extremum scan shared by both `find_extremes`
implementations: strict `<`/`>` comparisons, so ties keep the
first-encountered location. -/
def extStep (st : Extremes) (e : (ℕ × ℕ) × ℚ) : Extremes :=
  let st1 := if e.2 < st.min_value then
      { st with min_value := e.2, min_value_location := e.1 } else st
  if st1.max_value < e.2 then
    { st1 with max_value := e.2, max_value_location := e.1 }
  else st1

/-- Initial scan state: `min_value = f32::MAX`, `max_value = f32::MIN`,
both locations `(0, 0)`. -/
def extInit : Extremes := ⟨f32MAX, f32MIN, (0, 0), (0, 0)⟩

/-- Translation of `find_extremes` (`lib.rs`): nested raster loops over the grid,
reading `data[y * width + x]`. -/
def find_extremes (input : Image) : Extremes :=
  (List.range input.height).foldl (fun st y =>
    (List.range input.width).foldl (fun st x =>
      extStep st ((x, y), input.pix x y)) st) extInit

/-- The `ndarray::Array2<f32/f64>` matrices of `template_matching.rs`,
indexed `get y x` (row, column) like `mat[[y, x]]`.  The function-backed
representation carries explicit dimensions; the source never reads out of
range under the theorems' hypotheses. -/
structure Array2 where
  h : ℕ
  w : ℕ
  get : ℕ → ℕ → ℚ

/-- Translation of `mat.map(|&x| f x)`: pointwise map, same dimensions. -/
def Array2.map (a : Array2) (f : ℚ → ℚ) : Array2 :=
  ⟨a.h, a.w, fun y x => f (a.get y x)⟩

/-- Translation of `mat.sum()`: sum of all entries. -/
def Array2.sum (a : Array2) : ℚ :=
  ∑ y ∈ Finset.range a.h, ∑ x ∈ Finset.range a.w, a.get y x

/-- In-place write `mat[[y, x]] = v` (via `get_mut`/`assign_elem` or the
`add_assign`/`sub_assign` calls of the source). -/
def Array2.setCell (a : Array2) (y x : ℕ) (v : ℚ) : Array2 :=
  ⟨a.h, a.w, fun y' x' => if y' = y ∧ x' = x then v else a.get y' x'⟩

/-- Bounds-checked `mat.get([y, x])` at *wrapped* `usize` indices: the
source computes `top - 1`/`left - 1` on `usize`, which for `0` wraps (in
release mode) to `usize::MAX`, an index `ndarray` rejects with `None`.
Taking the indices in `ℤ` and rejecting negatives models exactly that. -/
def Array2.getI (a : Array2) (y x : ℤ) : Option ℚ :=
  if 0 ≤ y ∧ y < (a.h : ℤ) ∧ 0 ≤ x ∧ x < (a.w : ℤ) then
    some (a.get y.toNat x.toNat)
  else none

/-- The body of the `integral_arr2` double loop at cell `(cur_y, cur_x)`:
`if cur_x > 0 && cur_y > 0` add the upper and left neighbours and subtract
the diagonal one, else add whichever of the two neighbours exists.  The
three sequential `add_assign`/`sub_assign` writes all target the same
cell. -/
def integralCell (res : Array2) (y x : ℕ) : Array2 :=
  if 0 < x ∧ 0 < y then
    let r1 := res.setCell y x (res.get y x + res.get (y - 1) x)
    let r2 := r1.setCell y x (r1.get y x + r1.get y (x - 1))
    r2.setCell y x (r2.get y x - r2.get (y - 1) (x - 1))
  else
    let r1 := if 0 < y then res.setCell y x (res.get y x + res.get (y - 1) x)
      else res
    if 0 < x then r1.setCell y x (r1.get y x + r1.get y (x - 1)) else r1

/-- Translation of `integral_arr2` (`template_matching.rs`): start from a clone of the
input and run the inclusion-exclusion recurrence over the cells in
raster order (`cur_y` outer, `cur_x` inner). -/
def integral_arr2 (mat : Array2) : Array2 :=
  (List.range mat.h).foldl (fun res y =>
    (List.range mat.w).foldl (fun res x => integralCell res y x) res) mat

/-- Translation of `subsum_from_integral_arrf32`: four bounds-checked lookups with
inclusion-exclusion; `top - 1`/`left - 1` out-of-range lookups (rows or
columns at index 0) contribute nothing.  Preconditions
`x + width - 1 < w` and `y + height - 1 < h` are `assert!`s in the
source and appear as hypotheses of the theorems. -/
def subsum_from_integral_arrf32 (m : Array2) (x y width height : ℕ) : ℚ :=
  let left : ℤ := (x : ℤ)
  let top : ℤ := (y : ℤ)
  let right : ℤ := (x : ℤ) + (width : ℤ) - 1
  let bottom : ℤ := (y : ℤ) + (height : ℤ) - 1
  let res0 := m.get (y + height - 1) (x + width - 1)
  let res1 := match m.getI (top - 1) (left - 1) with
    | some v => res0 + v
    | none => res0
  let res2 := match m.getI bottom (left - 1) with
    | some v => res1 - v
    | none => res1
  match m.getI (top - 1) right with
  | some v => res2 - v
  | none => res2

/-- Translation of `subsum_from_integral_arrf64`: the same rectangle sum with explicit
`x > 0`/`y > 0` branching instead of bounds-checked lookups. -/
def subsum_from_integral_arrf64 (m : Array2) (x y width height : ℕ) : ℚ :=
  let left := x
  let top := y
  let right := x + width - 1
  let bottom := y + height - 1
  let res := m.get bottom right
  if 0 < x ∧ 0 < y then
    res + m.get (top - 1) (left - 1) - m.get bottom (left - 1)
      - m.get (top - 1) right
  else if 0 < x then res - m.get bottom (left - 1)
  else if 0 < y then res - m.get (top - 1) right
  else res

/-- Translation of `square_sum_arr2f32` (`template_matching.rs`): `Σ p²`. -/
def square_sum_arr2f32 (mat : Array2) : ℚ :=
  ∑ y ∈ Finset.range mat.h, ∑ x ∈ Finset.range mat.w, mat.get y x * mat.get y x

/-- Modelled from the spec: the external `fftconvolve::fftcorrelate` with
`Mode::Valid` (spec §4.3 step 1): the raw cross-correlation of frame and
template restricted to the valid region, output size exactly
`(H - h + 1) × (W - w + 1)`. -/
def fftcorrelate_valid (image kernel : Array2) : Array2 :=
  ⟨image.h - kernel.h + 1, image.w - kernel.w + 1, fun y x =>
    ∑ j ∈ Finset.range kernel.h, ∑ i ∈ Finset.range kernel.w,
      image.get (y + j) (x + i) * kernel.get j i⟩

namespace TM

/-- The CPU `match_template` (`template_matching.rs`), parametrised over
the `f64` square root `sqrtf`.  `f32 → f64` widening is exact on the
rational model.  When the kernel is larger than the image the call
panics: either inside `fftcorrelate(..).unwrap()` or at the `usize`
subtraction `image_h - kernel_h + 1`; the guard models that panic.  The
per-cell normalisation loop writes each cell once, reading only its own
raw value and the pre-computed integral tables, so it is expressed
pointwise. -/
def match_template (sqrtf : ℚ → ℚ) (image kernel : Array2) : Panics Array2 :=
  if kernel.h ≤ image.h ∧ kernel.w ≤ image.w then
    let squared_image := image.map (fun v => v * v)
    let res := fftcorrelate_valid image kernel
    let integral_image := integral_arr2 image
    let integral_squared_image := integral_arr2 squared_image
    let kernel_sum := kernel.sum
    let kernel_sqsum := (kernel.map (fun v => v * v)).sum
    let n : ℚ := ((kernel.h * kernel.w : ℕ) : ℚ)
    let kernel_avg := kernel_sum / n
    let kernel_var := kernel_sqsum / n - kernel_avg * kernel_avg
    let y_len := image.h - kernel.h + 1
    let x_len := image.w - kernel.w + 1
    Panics.ok ⟨y_len, x_len, fun y x =>
      if y < y_len ∧ x < x_len then
        let value_sum := subsum_from_integral_arrf64 integral_image x y
          kernel.w kernel.h
        let value_sqsum := subsum_from_integral_arrf64 integral_squared_image
          x y kernel.w kernel.h
        let value_avg := value_sum / n
        let value_var := value_sqsum / n - value_avg * value_avg
        (res.get y x - value_sum * kernel_avg) /
          (sqrtf (value_var * kernel_var) * n)
      else res.get y x⟩
  else Panics.panicked "attempt to subtract with overflow"

/-- The CPU `find_extremes` (`template_matching.rs`): a single
`iter().enumerate()` pass in row-major order, `y = idx / w`,
`x = idx % w`, sharing the strict-comparison step. -/
def find_extremes (input : Array2) : Extremes :=
  (List.range (input.h * input.w)).foldl (fun st idx =>
    extStep st ((idx % input.w, idx / input.w),
      input.get (idx / input.w) (idx % input.w))) extInit

end TM

/-- The score grid a successful raw-method dispatch leaves in the staging
buffer, as an image. -/
def ccorrGrid (method : MatchTemplateMethod) (input tmpl : Image) : Image :=
  ⟨gridData (input.width - tmpl.width + 1) (input.height - tmpl.height + 1)
      (shaderCell method input tmpl),
    input.width - tmpl.width + 1, input.height - tmpl.height + 1⟩

/-- The session state after a successful dispatch from a fresh matcher. -/
def dispatchedState (method : MatchTemplateMethod) (input tmpl : Image) :
    TemplateMatcher :=
  ⟨some method, true, (input.width, input.height),
    (tmpl.width, tmpl.height),
    (input.width - tmpl.width + 1, input.height - tmpl.height + 1),
    some input, some tmpl, true,
    some (ccorrGrid method input tmpl).data, true⟩

/-- The mean-subtracted template `tc` built inside `ccoeff`. -/
def meanSubtracted (tmpl : Image) : Image :=
  ⟨tmpl.data.map (fun p => p - image_mean tmpl), tmpl.width, tmpl.height⟩

/-- What `ccoeff` actually returns (for either value of `normed`):
`CCorr(I, tc) + CCorr(I, mask) * (-mean(tc))`, with no normalisation. -/
def ccoeffResult (input tmpl : Image) : Image :=
  (ccorrGrid .CrossCorrelation input (meanSubtracted tmpl)).add
    ((ccorrGrid .CrossCorrelation input
        (Image.const tmpl.width tmpl.height 0)).mulScalar
      (-image_mean (meanSubtracted tmpl)))

/-- Inclusive 2-D prefix sum `Σ_{y' ≤ y} Σ_{x' ≤ x} m y' x'`: the value
the summed-area table is meant to hold at `(y, x)` (spec §4.2). -/
def prefixSum (m : ℕ → ℕ → ℚ) (y x : ℕ) : ℚ :=
  ∑ y' ∈ Finset.range (y + 1), ∑ x' ∈ Finset.range (x + 1), m y' x'

/-- Exclusive 2-D prefix sum over `b` rows and `a` columns. -/
def exclSum (m : ℕ → ℕ → ℚ) (b a : ℕ) : ℚ :=
  ∑ y' ∈ Finset.range b, ∑ x' ∈ Finset.range a, m y' x'

/-- The sum of `m` over the rectangle with top-left `(x, y)`, width `w`
and height `h`. -/
def rectSum (m : ℕ → ℕ → ℚ) (x y w h : ℕ) : ℚ :=
  ∑ j ∈ Finset.range h, ∑ i ∈ Finset.range w, m (y + j) (x + i)

/-- Loop invariant of `integral_arr2`: the cells strictly before `(y, x)`
in raster order hold the prefix sums, the rest still hold the input. -/
def IntegralInv (mat : Array2) (y x : ℕ) (g : Array2) : Prop :=
  ∀ y' x', y' < mat.h → x' < mat.w →
    ((y' < y ∨ (y' = y ∧ x' < x)) → g.get y' x' = prefixSum mat.get y' x') ∧
    (¬(y' < y ∨ (y' = y ∧ x' < x)) → g.get y' x' = mat.get y' x')

/-- Row-major enumeration of an `Image`'s cells as `((x, y), value)`
pairs, the traversal order of `find_extremes` in `lib.rs`. -/
def imageEnum (img : Image) : List ((ℕ × ℕ) × ℚ) :=
  (List.range (img.height * img.width)).map fun i =>
    ((i % img.width, i / img.width), img.pix (i % img.width) (i / img.width))

/-- Row-major enumeration of an `Array2`'s cells as `((x, y), value)`
pairs, the traversal order of `iter().enumerate()` in
`template_matching.rs`. -/
def arrEnum (a : Array2) : List ((ℕ × ℕ) × ℚ) :=
  (List.range (a.h * a.w)).map fun i =>
    ((i % a.w, i / a.w), a.get (i / a.w) (i % a.w))

/-- What it means for an `Extremes` record to correctly describe the
extremes of the `h × w` grid of values `val` (claim C9): the reported
minimum/maximum are attained at the reported in-range locations, they
bound every cell, and every cell strictly earlier in raster order than a
reported location is strictly worse, so ties keep the first-encountered
location. -/
def ExtremesSpec (w h : ℕ) (val : ℕ → ℕ → ℚ) (r : Extremes) : Prop :=
  (r.min_value_location.1 < w ∧ r.min_value_location.2 < h ∧
    val r.min_value_location.1 r.min_value_location.2 = r.min_value) ∧
  (∀ x y, x < w → y < h → r.min_value ≤ val x y) ∧
  (∀ x y, x < w → y < h →
    (y < r.min_value_location.2 ∨
      (y = r.min_value_location.2 ∧ x < r.min_value_location.1)) →
    r.min_value < val x y) ∧
  (r.max_value_location.1 < w ∧ r.max_value_location.2 < h ∧
    val r.max_value_location.1 r.max_value_location.2 = r.max_value) ∧
  (∀ x y, x < w → y < h → val x y ≤ r.max_value) ∧
  (∀ x y, x < w → y < h →
    (y < r.max_value_location.2 ∨
      (y = r.max_value_location.2 ∧ x < r.max_value_location.1)) →
    val x y < r.max_value)

/-- The all-ones `n × n` buffer of claim C8. -/
def onesArr (n : ℕ) : Array2 := ⟨n, n, fun _ _ => 1⟩

/-- The per-cell specification formula of spec §4.3 for the CPU backend:
`score = (raw − local_sum·template_mean) / sqrt(local_var·template_var)
/ template_area`, with the local patch statistics written as *direct*
rectangle sums of the frame and the squared frame (what the integral
tables fetch), and the template statistics from the template sums. -/
def CpuMatchSpec (sqrtf : ℚ → ℚ) (image kernel : Array2) : Prop :=
  ∃ g, TM.match_template sqrtf image kernel = .ok g ∧
    g.h = image.h - kernel.h + 1 ∧ g.w = image.w - kernel.w + 1 ∧
    ∀ y x, y < image.h - kernel.h + 1 → x < image.w - kernel.w + 1 →
      g.get y x =
        ((fftcorrelate_valid image kernel).get y x
            - rectSum image.get x y kernel.w kernel.h *
              (kernel.sum / ((kernel.h * kernel.w : ℕ) : ℚ)))
          / sqrtf
            ((rectSum (image.map fun v => v * v).get x y kernel.w kernel.h /
                  ((kernel.h * kernel.w : ℕ) : ℚ)
                - rectSum image.get x y kernel.w kernel.h /
                    ((kernel.h * kernel.w : ℕ) : ℚ) *
                  (rectSum image.get x y kernel.w kernel.h /
                    ((kernel.h * kernel.w : ℕ) : ℚ)))
              * ((kernel.map fun v => v * v).sum /
                    ((kernel.h * kernel.w : ℕ) : ℚ)
                - kernel.sum / ((kernel.h * kernel.w : ℕ) : ℚ) *
                  (kernel.sum / ((kernel.h * kernel.w : ℕ) : ℚ))))
          / ((kernel.h * kernel.w : ℕ) : ℚ)

theorem match_template_fresh (input tmpl : Image)
    (method : MatchTemplateMethod)
    (hm : method = .SumOfAbsoluteErrors ∨ method = .SumOfSquaredErrors ∨
      method = .CrossCorrelation)
    (hw : tmpl.width ≤ input.width) (hh : tmpl.height ≤ input.height) :
    TemplateMatcher.new.match_template input tmpl method =
      .ok (dispatchedState method input tmpl) := by
  rcases hm with rfl | rfl | rfl <;>
    simp [TemplateMatcher.match_template, TemplateMatcher.new,
      TemplateMatcher.wait_for_result, Panics.bind, hw, hh,
      dispatchedState, ccorrGrid]

theorem wait_for_result_dispatched (method : MatchTemplateMethod)
    (input tmpl : Image) :
    (dispatchedState method input tmpl).wait_for_result =
      (some (ccorrGrid method input tmpl),
        { dispatchedState method input tmpl with matchingOngoing := false }) := by
  simp [TemplateMatcher.wait_for_result, dispatchedState, ccorrGrid]

theorem ccorr_eval (input tmpl : Image)
    (hw : tmpl.width ≤ input.width) (hh : tmpl.height ≤ input.height) :
    ccorr input tmpl = .ok (ccorrGrid .CrossCorrelation input tmpl) := by
  rw [ccorr, match_template_fresh input tmpl _ (by tauto) hw hh]
  rw [Panics.bind, wait_for_result_dispatched]

theorem ccoeff_eval (input tmpl : Image) (normed : Bool)
    (hw : tmpl.width ≤ input.width) (hh : tmpl.height ≤ input.height) :
    ccoeff input tmpl normed = .ok (ccoeffResult input tmpl) := by
  have h1 : ccorr input (Image.const tmpl.width tmpl.height 0) =
      .ok (ccorrGrid .CrossCorrelation input
        (Image.const tmpl.width tmpl.height 0)) := ccorr_eval _ _ hw hh
  have h2 : ccorr input ⟨tmpl.data.map (fun p => p - image_mean tmpl),
        tmpl.width, tmpl.height⟩ =
      .ok (ccorrGrid .CrossCorrelation input
        ⟨tmpl.data.map (fun p => p - image_mean tmpl),
          tmpl.width, tmpl.height⟩) :=
    ccorr_eval _ _ hw hh
  cases normed <;>
    simp [ccoeff, Panics.bind, h1, h2, ccoeffResult, meanSubtracted]

theorem sum_range_split (f : ℕ → ℚ) (m n : ℕ) :
    ∑ i ∈ Finset.range (m + n), f i =
      (∑ i ∈ Finset.range m, f i) + ∑ j ∈ Finset.range n, f (m + j) := by
  induction n with
  | zero => simp
  | succ n ih => rw [← Nat.add_assoc, Finset.sum_range_succ,
      Finset.sum_range_succ, ih]; ring

theorem exclSum_rows (m : ℕ → ℕ → ℚ) (b d a : ℕ) :
    exclSum m (b + d) a =
      exclSum m b a + ∑ j ∈ Finset.range d, ∑ x' ∈ Finset.range a, m (b + j) x' := by
  simpa [exclSum] using
    sum_range_split (fun y' => ∑ x' ∈ Finset.range a, m y' x') b d

theorem rectSum_excl (m : ℕ → ℕ → ℚ) (x y w h : ℕ) :
    rectSum m x y w h =
      exclSum m (y + h) (x + w) - exclSum m y (x + w)
        - exclSum m (y + h) x + exclSum m y x := by
  have hrow : ∀ j, ∑ x' ∈ Finset.range (x + w), m (y + j) x' =
      (∑ x' ∈ Finset.range x, m (y + j) x') +
        ∑ i ∈ Finset.range w, m (y + j) (x + i) := fun j =>
    sum_range_split (fun x' => m (y + j) x') x w
  rw [exclSum_rows m y h (x + w), exclSum_rows m y h x]
  simp only [hrow, Finset.sum_add_distrib]
  unfold rectSum
  ring

theorem prefixSum_excl (m : ℕ → ℕ → ℚ) (y x : ℕ) :
    prefixSum m y x = exclSum m (y + 1) (x + 1) := rfl

/-- The inclusion-exclusion recurrence of spec §4.2, satisfied by the
2-D prefix sum. -/
theorem prefixSum_rec (m : ℕ → ℕ → ℚ) (y x : ℕ) :
    prefixSum m y x = m y x
      + (if 0 < y then prefixSum m (y - 1) x else 0)
      + (if 0 < x then prefixSum m y (x - 1) else 0)
      - (if 0 < x ∧ 0 < y then prefixSum m (y - 1) (x - 1) else 0) := by
  rcases y with _ | y' <;> rcases x with _ | x' <;>
    simp [prefixSum, Finset.sum_range_succ, Finset.sum_add_distrib] <;> ring

theorem Array2.get_setCell_self (a : Array2) (y x : ℕ) (v : ℚ) :
    (a.setCell y x v).get y x = v := by simp [Array2.setCell]

theorem Array2.get_setCell_ne {y x y' x' : ℕ} (h : ¬(y' = y ∧ x' = x))
    (a : Array2) (v : ℚ) : (a.setCell y x v).get y' x' = a.get y' x' := by
  simp [Array2.setCell, h]

theorem Array2.setCell_h (a : Array2) (y x : ℕ) (v : ℚ) :
    (a.setCell y x v).h = a.h := rfl

theorem Array2.setCell_w (a : Array2) (y x : ℕ) (v : ℚ) :
    (a.setCell y x v).w = a.w := rfl

theorem integralCell_step (mat : Array2) (y x : ℕ) (g : Array2)
    (hy : y < mat.h) (hx : x < mat.w) (hinv : IntegralInv mat y x g) :
    IntegralInv mat y (x + 1) (integralCell g y x) := by
  have hcur : g.get y x = mat.get y x :=
    (hinv y x hy hx).2 (by simp)
  have hup : 0 < y → g.get (y - 1) x = prefixSum mat.get (y - 1) x :=
    fun h0 => (hinv (y - 1) x (lt_trans (Nat.sub_lt h0 Nat.one_pos) hy) hx).1
      (Or.inl (Nat.sub_lt h0 Nat.one_pos))
  have hleft : 0 < x → g.get y (x - 1) = prefixSum mat.get y (x - 1) :=
    fun h0 => (hinv y (x - 1) hy (lt_trans (Nat.sub_lt h0 Nat.one_pos) hx)).1
      (Or.inr ⟨rfl, Nat.sub_lt h0 Nat.one_pos⟩)
  have hdiag : 0 < x → 0 < y →
      g.get (y - 1) (x - 1) = prefixSum mat.get (y - 1) (x - 1) :=
    fun hx0 hy0 => (hinv (y - 1) (x - 1)
        (lt_trans (Nat.sub_lt hy0 Nat.one_pos) hy)
        (lt_trans (Nat.sub_lt hx0 Nat.one_pos) hx)).1
      (Or.inl (Nat.sub_lt hy0 Nat.one_pos))
  have hvalue : (integralCell g y x).get y x = prefixSum mat.get y x := by
    rw [prefixSum_rec mat.get y x]
    simp only [integralCell]
    rcases Nat.eq_zero_or_pos x with hx0 | hx0 <;>
      rcases Nat.eq_zero_or_pos y with hy0 | hy0
    · subst hx0; subst hy0
      simp [Nat.lt_irrefl, hcur]
    · subst hx0
      simp [Nat.lt_irrefl, hy0, Array2.get_setCell_self, hcur, hup hy0]
    · subst hy0
      simp [Nat.lt_irrefl, hx0, Array2.get_setCell_self, hcur, hleft hx0]
    · have hyne : ¬(y - 1 = y ∧ x - 1 = x) := fun hc =>
        absurd hc.1 (Nat.ne_of_lt (Nat.sub_lt hy0 Nat.one_pos))
      have hxne : ¬(y = y ∧ x - 1 = x) := fun hc =>
        absurd hc.2 (Nat.ne_of_lt (Nat.sub_lt hx0 Nat.one_pos))
      rw [if_pos (And.intro hx0 hy0), Array2.get_setCell_self,
        Array2.get_setCell_ne hyne, Array2.get_setCell_ne hyne,
        Array2.get_setCell_self, Array2.get_setCell_ne hxne,
        Array2.get_setCell_self, hcur, hup hy0, hleft hx0, hdiag hx0 hy0]
      simp [hx0, hy0]
  have hother : ∀ y' x', ¬(y' = y ∧ x' = x) →
      (integralCell g y x).get y' x' = g.get y' x' := by
    intro y' x' hne
    simp only [integralCell]
    split
    · rw [Array2.get_setCell_ne hne, Array2.get_setCell_ne hne,
        Array2.get_setCell_ne hne]
    · split <;> split <;> simp [Array2.get_setCell_ne hne]
  intro y' x' hy' hx'
  constructor
  · intro hproc
    by_cases hc : y' = y ∧ x' = x
    · rcases hc with ⟨rfl, rfl⟩
      exact hvalue
    · rw [hother y' x' hc]
      rcases hproc with h | ⟨rfl, h⟩
      · exact (hinv y' x' hy' hx').1 (Or.inl h)
      · have : x' < x := by
          rcases Nat.lt_succ_iff_lt_or_eq.mp h with h' | rfl
          · exact h'
          · exact absurd ⟨rfl, rfl⟩ hc
        exact (hinv y' x' hy' hx').1 (Or.inr ⟨rfl, this⟩)
  · intro hunproc
    have hne : ¬(y' = y ∧ x' = x) := by
      rintro ⟨rfl, rfl⟩
      exact hunproc (Or.inr ⟨rfl, Nat.lt_succ_self _⟩)
    rw [hother y' x' hne]
    refine (hinv y' x' hy' hx').2 ?_
    rintro (h | ⟨rfl, h⟩)
    · exact hunproc (Or.inl h)
    · exact hunproc (Or.inr ⟨rfl, Nat.lt_succ_of_lt h⟩)

theorem foldl_preserve {α β : Type} (f : α → β → α) (P : α → Prop)
    (hf : ∀ a b, P a → P (f a b)) : ∀ (l : List β) (a), P a → P (l.foldl f a)
  | [], _, h => h
  | b :: l, a, h => foldl_preserve f P hf l (f a b) (hf a b h)

theorem integralCell_dims (g : Array2) (y x : ℕ) :
    (integralCell g y x).h = g.h ∧ (integralCell g y x).w = g.w := by
  simp only [integralCell]
  split
  · exact ⟨rfl, rfl⟩
  · split <;> split <;> exact ⟨rfl, rfl⟩

theorem integral_arr2_dims (mat : Array2) :
    (integral_arr2 mat).h = mat.h ∧ (integral_arr2 mat).w = mat.w := by
  unfold integral_arr2
  refine foldl_preserve _ (fun g : Array2 => g.h = mat.h ∧ g.w = mat.w)
    ?_ _ _ ⟨rfl, rfl⟩
  intro a y ha
  refine foldl_preserve _ (fun g : Array2 => g.h = mat.h ∧ g.w = mat.w)
    ?_ _ _ ha
  intro a x ha
  exact ⟨(integralCell_dims a y x).1.trans ha.1,
    (integralCell_dims a y x).2.trans ha.2⟩

theorem integral_row (mat : Array2) (y : ℕ) (hy : y < mat.h) :
    ∀ x, x ≤ mat.w → ∀ g, IntegralInv mat y 0 g →
      IntegralInv mat y x
        ((List.range x).foldl (fun res x' => integralCell res y x') g) := by
  intro x
  induction x with
  | zero => intro _ g hg; simpa using hg
  | succ x ih =>
      intro hx g hg
      rw [List.range_succ, List.foldl_append, List.foldl_cons, List.foldl_nil]
      exact integralCell_step mat y x _ hy (by omega) (ih (by omega) g hg)

theorem inv_row_advance (mat : Array2) (y : ℕ) (g : Array2)
    (h : IntegralInv mat y mat.w g) : IntegralInv mat (y + 1) 0 g := by
  intro y' x' hy' hx'
  have h2 := h y' x' hy' hx'
  constructor
  · intro hproc
    apply h2.1
    omega
  · intro hun
    apply h2.2
    omega

theorem integral_all (mat : Array2) :
    ∀ y, y ≤ mat.h →
      IntegralInv mat y 0 ((List.range y).foldl (fun res y' =>
        (List.range mat.w).foldl (fun res x => integralCell res y' x) res) mat) := by
  intro y
  induction y with
  | zero =>
      intro _
      intro y' x' _ _
      constructor
      · intro hproc; omega
      · intro _; rfl
  | succ y ih =>
      intro hy
      rw [List.range_succ, List.foldl_append, List.foldl_cons, List.foldl_nil]
      exact inv_row_advance mat y _
        (integral_row mat y (by omega) mat.w le_rfl _ (ih (by omega)))

/-- Correctness of the summed-area table: every in-range cell of
`integral_arr2 mat` holds the inclusive 2-D prefix sum of `mat`. -/
theorem integral_spec (mat : Array2) (y x : ℕ) (hy : y < mat.h)
    (hx : x < mat.w) : (integral_arr2 mat).get y x = prefixSum mat.get y x :=
  ((integral_all mat mat.h le_rfl) y x hy hx).1 (Or.inl hy)

/-- Correctness of `subsum_from_integral_arrf64` over the integral table:
it returns the plain rectangle sum of the underlying buffer. -/
theorem subsum_f64_spec (mat : Array2) (x y w h : ℕ) (hw : 0 < w)
    (hh : 0 < h) (hxw : x + w ≤ mat.w) (hyh : y + h ≤ mat.h) :
    subsum_from_integral_arrf64 (integral_arr2 mat) x y w h =
      rectSum mat.get x y w h := by
  obtain ⟨w', rfl⟩ : ∃ w', w = w' + 1 := ⟨w - 1, by omega⟩
  obtain ⟨h', rfl⟩ : ∃ h', h = h' + 1 := ⟨h - 1, by omega⟩
  have hbr : y + (h' + 1) - 1 = y + h' := by omega
  have hrr : x + (w' + 1) - 1 = x + w' := by omega
  simp only [subsum_from_integral_arrf64, hbr, hrr]
  rw [rectSum_excl]
  rcases Nat.eq_zero_or_pos x with hx0 | hx0 <;>
    rcases Nat.eq_zero_or_pos y with hy0 | hy0
  · subst hx0; subst hy0
    rw [if_neg (by omega)]
    rw [if_neg (by omega), if_neg (by omega)]
    rw [integral_spec mat _ _ (by omega) (by omega), prefixSum_excl]
    simp [exclSum]
  · subst hx0
    obtain ⟨y', rfl⟩ : ∃ y', y = y' + 1 := ⟨y - 1, by omega⟩
    rw [if_neg (by omega), if_neg (by omega), if_pos hy0]
    rw [integral_spec mat _ _ (by omega) (by omega),
      integral_spec mat _ _ (by omega) (by omega)]
    have h1 : y' + 1 - 1 = y' := by omega
    rw [h1, prefixSum_excl, prefixSum_excl]
    simp [exclSum, Nat.add_assoc]
  · subst hy0
    obtain ⟨x', rfl⟩ : ∃ x', x = x' + 1 := ⟨x - 1, by omega⟩
    rw [if_neg (by omega), if_pos hx0]
    rw [integral_spec mat _ _ (by omega) (by omega),
      integral_spec mat _ _ (by omega) (by omega)]
    have h1 : x' + 1 - 1 = x' := by omega
    rw [h1, prefixSum_excl, prefixSum_excl]
    simp [exclSum, Nat.add_assoc]
  · obtain ⟨x', rfl⟩ : ∃ x', x = x' + 1 := ⟨x - 1, by omega⟩
    obtain ⟨y', rfl⟩ : ∃ y', y = y' + 1 := ⟨y - 1, by omega⟩
    rw [if_pos ⟨hx0, hy0⟩]
    have h1 : x' + 1 - 1 = x' := by omega
    have h2 : y' + 1 - 1 = y' := by omega
    rw [h1, h2,
      integral_spec mat _ _ (by omega) (by omega),
      integral_spec mat _ _ (by omega) (by omega),
      integral_spec mat _ _ (by omega) (by omega),
      integral_spec mat _ _ (by omega) (by omega)]
    rw [prefixSum_excl, prefixSum_excl, prefixSum_excl, prefixSum_excl]
    rw [show y' + 1 + h' + 1 = y' + 1 + (h' + 1) from by omega,
      show x' + 1 + w' + 1 = x' + 1 + (w' + 1) from by omega]
    ring

theorem extStep_min_value (st : Extremes) (e : (ℕ × ℕ) × ℚ) :
    (extStep st e).min_value =
      if e.2 < st.min_value then e.2 else st.min_value := by
  simp only [extStep]
  split <;> split <;> rfl

theorem extStep_min_loc (st : Extremes) (e : (ℕ × ℕ) × ℚ) :
    (extStep st e).min_value_location =
      if e.2 < st.min_value then e.1 else st.min_value_location := by
  simp only [extStep]
  split <;> split <;> rfl

theorem extStep_max_value (st : Extremes) (e : (ℕ × ℕ) × ℚ) :
    (extStep st e).max_value =
      if st.max_value < e.2 then e.2 else st.max_value := by
  simp only [extStep]
  split <;> split <;> rfl

theorem extStep_max_loc (st : Extremes) (e : (ℕ × ℕ) × ℚ) :
    (extStep st e).max_value_location =
      if st.max_value < e.2 then e.1 else st.max_value_location := by
  simp only [extStep]
  split <;> split <;> rfl

/-- Minimum half of the shared extremum-scan fold: the running minimum
bounds every scanned value from below, and either no value ever went
strictly below the `f32::MAX` seed (seed and location `(0, 0)` are kept)
or the reported location is the first scanned element attaining the
minimum. -/
theorem extFold_min (L : List ((ℕ × ℕ) × ℚ)) :
    (∀ e ∈ L, (L.foldl extStep extInit).min_value ≤ e.2) ∧
    (L.foldl extStep extInit).min_value ≤ f32MAX ∧
    (((L.foldl extStep extInit).min_value = f32MAX ∧
        (L.foldl extStep extInit).min_value_location = (0, 0)) ∨
      ∃ i, ∃ hi : i < L.length,
        L[i] = ((L.foldl extStep extInit).min_value_location,
          (L.foldl extStep extInit).min_value) ∧
        ∀ j, ∀ hj : j < L.length, j < i →
          (L.foldl extStep extInit).min_value < (L[j]).2) := by
  induction L using List.reverseRecOn with
  | nil => simp [extInit]
  | append_singleton L e ih =>
      rw [List.foldl_append, List.foldl_cons, List.foldl_nil]
      obtain ⟨ihb, ihM, ihc⟩ := ih
      rw [extStep_min_value, extStep_min_loc]
      by_cases hlt : e.2 < (L.foldl extStep extInit).min_value
      · rw [if_pos hlt, if_pos hlt]
        refine ⟨?_, le_of_lt (lt_of_lt_of_le hlt ihM), Or.inr ⟨L.length, by simp, ?_, ?_⟩⟩
        · intro e' he'
          rcases List.mem_append.mp he' with h | h
          · exact le_of_lt (lt_of_lt_of_le hlt (ihb e' h))
          · simp at h
            simp [h]
        · simp
        · intro j hj hjL
          rw [List.getElem_append_left (by simpa using hjL)]
          exact lt_of_lt_of_le hlt (ihb _ (List.getElem_mem _))
      · rw [if_neg hlt, if_neg hlt]
        push_neg at hlt
        refine ⟨?_, ihM, ?_⟩
        · intro e' he'
          rcases List.mem_append.mp he' with h | h
          · exact ihb e' h
          · simp at h
            simp [h, hlt]
        · rcases ihc with hseed | ⟨i, hi, hget, hfirst⟩
          · exact Or.inl hseed
          · refine Or.inr ⟨i, by simp [Nat.lt_succ_of_lt hi], ?_, ?_⟩
            · rw [List.getElem_append_left hi]
              exact hget
            · intro j hj hji
              have hjL : j < L.length := lt_trans hji hi
              rw [List.getElem_append_left hjL]
              exact hfirst j hjL hji

/-- Maximum half of the shared extremum-scan fold, mirroring
`extFold_min` with the `f32::MIN` seed. -/
theorem extFold_max (L : List ((ℕ × ℕ) × ℚ)) :
    (∀ e ∈ L, e.2 ≤ (L.foldl extStep extInit).max_value) ∧
    f32MIN ≤ (L.foldl extStep extInit).max_value ∧
    (((L.foldl extStep extInit).max_value = f32MIN ∧
        (L.foldl extStep extInit).max_value_location = (0, 0)) ∨
      ∃ i, ∃ hi : i < L.length,
        L[i] = ((L.foldl extStep extInit).max_value_location,
          (L.foldl extStep extInit).max_value) ∧
        ∀ j, ∀ hj : j < L.length, j < i →
          (L[j]).2 < (L.foldl extStep extInit).max_value) := by
  induction L using List.reverseRecOn with
  | nil => simp [extInit]
  | append_singleton L e ih =>
      rw [List.foldl_append, List.foldl_cons, List.foldl_nil]
      obtain ⟨ihb, ihM, ihc⟩ := ih
      rw [extStep_max_value, extStep_max_loc]
      by_cases hlt : (L.foldl extStep extInit).max_value < e.2
      · rw [if_pos hlt, if_pos hlt]
        refine ⟨?_, le_of_lt (lt_of_le_of_lt ihM hlt), Or.inr ⟨L.length, by simp, ?_, ?_⟩⟩
        · intro e' he'
          rcases List.mem_append.mp he' with h | h
          · exact le_of_lt (lt_of_le_of_lt (ihb e' h) hlt)
          · simp at h
            simp [h]
        · simp
        · intro j hj hjL
          rw [List.getElem_append_left (by simpa using hjL)]
          exact lt_of_le_of_lt (ihb _ (List.getElem_mem _)) hlt
      · rw [if_neg hlt, if_neg hlt]
        push_neg at hlt
        refine ⟨?_, ihM, ?_⟩
        · intro e' he'
          rcases List.mem_append.mp he' with h | h
          · exact ihb e' h
          · simp at h
            simp [h, hlt]
        · rcases ihc with hseed | ⟨i, hi, hget, hfirst⟩
          · exact Or.inl hseed
          · refine Or.inr ⟨i, by simp [Nat.lt_succ_of_lt hi], ?_, ?_⟩
            · rw [List.getElem_append_left hi]
              exact hget
            · intro j hj hji
              have hjL : j < L.length := lt_trans hji hi
              rw [List.getElem_append_left hjL]
              exact hfirst j hjL hji

theorem foldl_ext {α β : Type} (f g : α → β → α) (l : List β)
    (h : ∀ a b, b ∈ l → f a b = g a b) : ∀ a, l.foldl f a = l.foldl g a := by
  induction l with
  | nil => intro a; rfl
  | cons b l ih =>
      intro a
      rw [List.foldl_cons, List.foldl_cons, h a b (List.mem_cons_self b l)]
      exact ih (fun a b hb => h a b (List.mem_cons_of_mem _ hb)) _

/-- A nested raster double fold equals the flat fold over
`range (h * w)` with `y = i / w`, `x = i % w`. -/
theorem foldl_grid {α : Type} (step : α → ℕ → ℕ → α) (h w : ℕ) (a : α) :
    (List.range h).foldl (fun st y =>
        (List.range w).foldl (fun st x => step st y x) st) a =
      (List.range (h * w)).foldl (fun st i => step st (i / w) (i % w)) a := by
  rcases Nat.eq_zero_or_pos w with hw0 | hw0
  · subst hw0
    simp
  · induction h generalizing a with
    | zero => simp
    | succ h ih =>
        rw [List.range_succ, List.foldl_append, ih, Nat.succ_mul,
          List.range_add, List.foldl_append, List.foldl_map]
        rw [List.foldl_cons, List.foldl_nil]
        apply foldl_ext
        intro st x hx
        have hxw : x < w := List.mem_range.mp hx
        have hdiv : (h * w + x) / w = h := by
          rw [Nat.add_comm, Nat.mul_comm, Nat.add_mul_div_left _ _ hw0,
            Nat.div_eq_of_lt hxw, Nat.zero_add]
        have hmod : (h * w + x) % w = x := by
          rw [Nat.add_comm, Nat.mul_comm, Nat.add_mul_mod_self_left,
            Nat.mod_eq_of_lt hxw]
        rw [hdiv, hmod]

theorem find_extremes_enum (img : Image) :
    find_extremes img = (imageEnum img).foldl extStep extInit := by
  unfold find_extremes imageEnum
  rw [List.foldl_map]
  exact foldl_grid (fun st y x => extStep st ((x, y), img.pix x y))
    img.height img.width extInit

theorem tm_find_extremes_enum (a : Array2) :
    TM.find_extremes a = (arrEnum a).foldl extStep extInit := by
  unfold TM.find_extremes arrEnum
  rw [List.foldl_map]

theorem cell_index_lt {x y w h : ℕ} (hx : x < w) (hy : y < h) :
    x + y * w < h * w := by
  have h1 : x + y * w < (y + 1) * w := by
    rw [Nat.succ_mul]
    omega
  exact lt_of_lt_of_le h1 (Nat.mul_le_mul_right w hy)

theorem cell_index_div {x : ℕ} (y : ℕ) {w : ℕ} (hx : x < w) :
    (x + y * w) / w = y := by
  rw [Nat.add_mul_div_right _ _ (by omega : 0 < w), Nat.div_eq_of_lt hx,
    Nat.zero_add]

theorem cell_index_mod {x : ℕ} (y : ℕ) {w : ℕ} (hx : x < w) :
    (x + y * w) % w = x := by
  rw [Nat.add_mul_mod_self_right, Nat.mod_eq_of_lt hx]

theorem raster_lt {x y w : ℕ} (i : ℕ) (hx : x < w)
    (h : y < i / w ∨ (y = i / w ∧ x < i % w)) : x + y * w < i := by
  have hdm : w * (i / w) + i % w = i := Nat.div_add_mod i w
  rcases h with h | ⟨rfl, h⟩
  · have h1 : x + y * w < (y + 1) * w := by rw [Nat.succ_mul]; omega
    have h2 : (y + 1) * w ≤ (i / w) * w := Nat.mul_le_mul_right w h
    have h3 : (i / w) * w = w * (i / w) := Nat.mul_comm _ _
    omega
  · have h3 : (i / w) * w = w * (i / w) := Nat.mul_comm _ _
    omega

/-- Grid-level specification of the extremum scan: the shared fold meets
`ExtremesSpec` on any grid of values inside the finite `f32` range. -/
theorem grid_extremes_spec (w h : ℕ) (val : ℕ → ℕ → ℚ) (hw : 0 < w)
    (hh : 0 < h)
    (hbound : ∀ x y, x < w → y < h → f32MIN ≤ val x y ∧ val x y ≤ f32MAX)
    (r : Extremes)
    (hr : r = ((List.range (h * w)).map (fun i =>
      ((i % w, i / w), val (i % w) (i / w)))).foldl extStep extInit) :
    ExtremesSpec w h val r := by
  unfold ExtremesSpec
  subst hr
  set L := (List.range (h * w)).map (fun i =>
    ((i % w, i / w), val (i % w) (i / w))) with hL
  have hlen : L.length = h * w := by simp [hL]
  have hget : ∀ j, ∀ hj : j < h * w,
      L[j] = ((j % w, j / w), val (j % w) (j / w)) := by
    intro j hj
    simp [hL]
  have hcells : ∀ x y, ∀ hx : x < w, ∀ hy : y < h,
      ∀ hb : x + y * w < L.length,
      L[x + y * w] = ((x, y), val x y) := by
    intro x y hx hy hb
    rw [hget _ (cell_index_lt hx hy), cell_index_mod y hx, cell_index_div y hx]
  have hmem : ∀ x y, x < w → y < h → ((x, y), val x y) ∈ L := by
    intro x y hx hy
    rw [← hcells x y hx hy (by rw [hlen]; exact cell_index_lt hx hy)]
    exact List.getElem_mem _
  obtain ⟨minb, minM, minc⟩ := extFold_min L
  obtain ⟨maxb, maxM, maxc⟩ := extFold_max L
  refine ⟨?_, ?_, ?_, ?_, ?_, ?_⟩
  · rcases minc with ⟨hmv, hloc⟩ | ⟨i, hi, hgi, hfirst⟩
    · have h0 := minb _ (hmem 0 0 hw hh)
      have hb := (hbound 0 0 hw hh).2
      rw [hloc]
      exact ⟨hw, hh, by rw [hmv] at h0 ⊢; exact le_antisymm hb h0⟩
    · have hiL : i < h * w := by omega
      have := hget i hiL
      rw [this] at hgi
      obtain ⟨hloc, hval⟩ := Prod.mk.injEq _ _ _ _ ▸ hgi
      refine ⟨?_, ?_, ?_⟩
      · rw [← hloc]; exact Nat.mod_lt _ hw
      · rw [← hloc]
        exact (Nat.div_lt_iff_lt_mul hw).mpr hiL
      · rw [← hloc]
        exact hval
  · intro x y hx hy
    exact minb _ (hmem x y hx hy)
  · intro x y hx hy hearly
    rcases minc with ⟨hmv, hloc⟩ | ⟨i, hi, hgi, hfirst⟩
    · rw [hloc] at hearly
      simp at hearly
    · have hiL : i < h * w := by omega
      rw [hget i hiL] at hgi
      obtain ⟨hloc, hval⟩ := Prod.mk.injEq _ _ _ _ ▸ hgi
      have hj : x + y * w < i := by
        apply raster_lt i hx
        rw [← hloc] at hearly
        simpa using hearly
      have hjlen : x + y * w < L.length := by omega
      have := hfirst _ hjlen hj
      rw [hcells x y hx hy hjlen] at this
      exact this
  · rcases maxc with ⟨hmv, hloc⟩ | ⟨i, hi, hgi, hfirst⟩
    · have h0 := maxb _ (hmem 0 0 hw hh)
      have hb := (hbound 0 0 hw hh).1
      rw [hloc]
      exact ⟨hw, hh, by rw [hmv] at h0 ⊢; exact le_antisymm h0 hb⟩
    · have hiL : i < h * w := by omega
      rw [hget i hiL] at hgi
      obtain ⟨hloc, hval⟩ := Prod.mk.injEq _ _ _ _ ▸ hgi
      refine ⟨?_, ?_, ?_⟩
      · rw [← hloc]; exact Nat.mod_lt _ hw
      · rw [← hloc]
        exact (Nat.div_lt_iff_lt_mul hw).mpr hiL
      · rw [← hloc]
        exact hval
  · intro x y hx hy
    exact maxb _ (hmem x y hx hy)
  · intro x y hx hy hearly
    rcases maxc with ⟨hmv, hloc⟩ | ⟨i, hi, hgi, hfirst⟩
    · rw [hloc] at hearly
      simp at hearly
    · have hiL : i < h * w := by omega
      rw [hget i hiL] at hgi
      obtain ⟨hloc, hval⟩ := Prod.mk.injEq _ _ _ _ ▸ hgi
      have hj : x + y * w < i := by
        apply raster_lt i hx
        rw [← hloc] at hearly
        simpa using hearly
      have hjlen : x + y * w < L.length := by omega
      have := hfirst _ hjlen hj
      rw [hcells x y hx hy hjlen] at this
      exact this

theorem try_merge_none (tw th x y : ℕ) (v : ℚ) (ms : List Match)
    (h : ∀ m ∈ ms, ¬ isNear tw th x y m) :
    try_merge tw th x y v ms = none := by
  induction ms with
  | nil => rfl
  | cons m rest ih =>
      rw [try_merge, ih (fun m' hm' => h m' (List.mem_cons_of_mem _ hm'))]
      simp [h m (List.mem_cons_self m rest)]

theorem try_merge_spec (tw th x y : ℕ) (v : ℚ) :
    ∀ (ms : List Match) (i : ℕ) (hi : i < ms.length),
      isNear tw th x y ms[i] →
      (∀ j, ∀ hj : j < ms.length, i < j → ¬ isNear tw th x y ms[j]) →
      try_merge tw th x y v ms =
        some (ms.set i (if ms[i].value < v then ⟨(x, y), v⟩
          else ms[i])) := by
  intro ms
  induction ms with
  | nil => intro i hi; exact absurd hi (by simp)
  | cons m rest ih =>
      intro i hi hnear hlater
      cases i with
      | zero =>
          have hrest : try_merge tw th x y v rest = none := by
            apply try_merge_none
            intro m' hm'
            obtain ⟨j, hj, rfl⟩ := List.mem_iff_getElem.mp hm'
            exact hlater (j + 1) (by simpa using hj) (Nat.succ_pos j)
          rw [try_merge, hrest]
          simp only [List.getElem_cons_zero] at hnear ⊢
          simp [hnear]
      | succ i =>
          have hin : i < rest.length := by simpa using hi
          have hnear' : isNear tw th x y rest[i] := by
            simpa using hnear
          have hlater' : ∀ j, ∀ hj : j < rest.length, i < j →
              ¬ isNear tw th x y rest[j] := by
            intro j hj hij
            have := hlater (j + 1) (by simpa using hj) (by omega)
            simpa using this
          rw [try_merge, ih i hin hnear' hlater']
          simp

theorem try_merge_mem (tw th x y : ℕ) (v : ℚ) :
    ∀ (ms ms' : List Match), try_merge tw th x y v ms = some ms' →
      ∀ m' ∈ ms', m' ∈ ms ∨ m' = ⟨(x, y), v⟩ := by
  intro ms
  induction ms with
  | nil => intro ms' h; simp [try_merge] at h
  | cons m rest ih =>
      intro ms' h m' hm'
      rw [try_merge] at h
      rcases hrec : try_merge tw th x y v rest with _ | rest'
      · rw [hrec] at h
        rcases hnear : decide (isNear tw th x y m) with _ | _
        · have : ¬ isNear tw th x y m := of_decide_eq_false hnear
          simp [this] at h
        · have hN : isNear tw th x y m := of_decide_eq_true hnear
          simp [hN] at h
          subst h
          rcases List.mem_cons.mp hm' with h' | h'
          · split at h'
            · exact Or.inr h'
            · exact Or.inl (h' ▸ List.mem_cons_self m rest)
          · exact Or.inl (List.mem_cons_of_mem _ h')
      · rw [hrec] at h
        simp at h
        subst h
        rcases List.mem_cons.mp hm' with h' | h'
        · exact Or.inl (h' ▸ List.mem_cons_self m rest)
        · rcases ih rest' hrec m' h' with h'' | h''
          · exact Or.inl (List.mem_cons_of_mem _ h'')
          · exact Or.inr h''

/-- Every match held in the list after one `match_step` has value below
the threshold, provided the incoming list did. -/
theorem match_step_inv (tw th : ℕ) (thr : ℚ) (ms : List Match)
    (x y : ℕ) (v : ℚ) (h : ∀ m ∈ ms, m.value < thr) :
    ∀ m ∈ match_step tw th thr ms x y v, m.value < thr := by
  intro m hm
  rw [match_step] at hm
  by_cases hv : v < thr
  · rw [if_pos hv] at hm
    rcases hmerge : try_merge tw th x y v ms with _ | ms'
    · rw [hmerge] at hm
      simp at hm
      rcases hm with h' | h'
      · exact h m h'
      · rw [h']
        exact hv
    · rw [hmerge] at hm
      simp at hm
      rcases try_merge_mem tw th x y v ms ms' hmerge m hm with h' | h'
      · exact h m h'
      · rw [h']
        exact hv
  · rw [if_neg hv] at hm
    exact h m hm

/-- Every match reported by `find_matches` has value strictly below the
threshold. -/
theorem find_matches_below (input : Image) (tw th : ℕ) (thr : ℚ) :
    ∀ m ∈ find_matches input tw th thr, m.value < thr := by
  unfold find_matches
  refine foldl_preserve _ (fun ms : List Match => ∀ m ∈ ms, m.value < thr)
    ?_ _ _ (by simp)
  intro ms y hms
  refine foldl_preserve _ (fun ms : List Match => ∀ m ∈ ms, m.value < thr)
    ?_ _ _ hms
  intro ms x hms
  exact match_step_inv tw th thr ms x y _ hms

/-- C3: `match_template` with method `CCOEFF_NORMED` returns the very
same grid as `CCOEFF`: the `normed` flag of `ccoeff` is ignored (the
template energy `tc_sq_sum` is computed and discarded, the normalisation
division is absent), so for every input the two calls are equal.  This
refutes the claim that `ccoeff(input, template, true)` differs from
`ccoeff(input, template, false)` by the normalisation division. -/
theorem c3_normed_equals_unnormed (input tmpl : Image) :
    ccoeff input tmpl true = ccoeff input tmpl false := rfl

/-- C2: for each raw method (`SumOfAbsoluteErrors`, `SumOfSquaredErrors`,
`CrossCorrelation`), the top-level `match_template` does *not* run the
requested kernel: it hands `MatchTemplateMethod::CCOEFF` to the GPU
matcher, whose pipeline selection panics `"not implemented yet"`.  This
refutes the claim that the call neither substitutes a different method
nor fails. -/
theorem c2_raw_methods_panic (input tmpl : Image)
    (method : MatchTemplateMethod)
    (hm : method = .SumOfAbsoluteErrors ∨ method = .SumOfSquaredErrors ∨
      method = .CrossCorrelation) :
    match_template input tmpl method = .panicked "not implemented yet" := by
  rcases hm with rfl | rfl | rfl <;>
    simp [match_template, TemplateMatcher.match_template, TemplateMatcher.new,
      TemplateMatcher.wait_for_result, Panics.bind]

theorem c2_witness :
    (MatchTemplateMethod.SumOfAbsoluteErrors = .SumOfAbsoluteErrors ∨
      MatchTemplateMethod.SumOfAbsoluteErrors = .SumOfSquaredErrors ∨
      MatchTemplateMethod.SumOfAbsoluteErrors = .CrossCorrelation) ∧
    match_template ⟨[0], 1, 1⟩ ⟨[0], 1, 1⟩ .SumOfAbsoluteErrors =
      .panicked "not implemented yet" :=
  ⟨Or.inl rfl, c2_raw_methods_panic ⟨[0], 1, 1⟩ ⟨[0], 1, 1⟩ _ (Or.inl rfl)⟩

/-- C5 counterexample: adding (likewise subtracting or multiplying) a
`2×1` buffer and a `1×1` buffer raises no `DimensionMismatch` — no such
error exists in this layer — and produces a buffer whose data length `1`
disagrees with its recorded `width * height = 2`. -/
theorem c5_counterexample :
    (Image.add ⟨[1, 2], 2, 1⟩ ⟨[3], 1, 1⟩).data.length ≠
      (Image.add ⟨[1, 2], 2, 1⟩ ⟨[3], 1, 1⟩).width *
        (Image.add ⟨[1, 2], 2, 1⟩ ⟨[3], 1, 1⟩).height ∧
    (Image.sub ⟨[1, 2], 2, 1⟩ ⟨[3], 1, 1⟩).data.length ≠
      (Image.sub ⟨[1, 2], 2, 1⟩ ⟨[3], 1, 1⟩).width *
        (Image.sub ⟨[1, 2], 2, 1⟩ ⟨[3], 1, 1⟩).height ∧
    (Image.mul ⟨[1, 2], 2, 1⟩ ⟨[3], 1, 1⟩).data.length ≠
      (Image.mul ⟨[1, 2], 2, 1⟩ ⟨[3], 1, 1⟩).width *
        (Image.mul ⟨[1, 2], 2, 1⟩ ⟨[3], 1, 1⟩).height := by
  refine ⟨?_, ?_, ?_⟩ <;> simp [Image.add, Image.sub, Image.mul]

/-- C5 amended: the elementwise image operations perform no dimension
check at all: each zips the two buffers (truncating to the shorter data
vector) and takes the *left* operand's width and height, so on
mismatched inputs the result's data length (the minimum of the two
lengths) can disagree with `width * height`. -/
theorem c5_no_dimension_check (a b : Image) :
    ((a.add b).data.length = min a.data.length b.data.length ∧
      (a.add b).width = a.width ∧ (a.add b).height = a.height) ∧
    ((a.sub b).data.length = min a.data.length b.data.length ∧
      (a.sub b).width = a.width ∧ (a.sub b).height = a.height) ∧
    ((a.mul b).data.length = min a.data.length b.data.length ∧
      (a.mul b).width = a.width ∧ (a.mul b).height = a.height) := by
  refine ⟨⟨?_, rfl, rfl⟩, ⟨?_, rfl, rfl⟩, ⟨?_, rfl, rfl⟩⟩ <;>
    simp [Image.add, Image.sub, Image.mul]

/-- C10: the outstanding-computation protocol of `TemplateMatcher`.
`wait_for_result` on a session with nothing dispatched returns `None`
and leaves the state unchanged; after any `wait_for_result` the
outstanding flag is cleared, so a second consecutive call returns
`None`; and `match_template` on a session with a pending result first
collects and discards it — dispatching from the pending state is the
same as dispatching from the collected state. -/
theorem c10_wait_for_result_protocol :
    (∀ s : TemplateMatcher, s.matchingOngoing = false →
      s.wait_for_result = (none, s)) ∧
    (∀ s : TemplateMatcher, (s.wait_for_result).2.matchingOngoing = false) ∧
    (∀ s : TemplateMatcher, ((s.wait_for_result).2.wait_for_result).1 = none) ∧
    (∀ (s : TemplateMatcher) (input tmpl : Image)
      (m : MatchTemplateMethod), s.matchingOngoing = true →
      s.match_template input tmpl m =
        ((s.wait_for_result).2).match_template input tmpl m) := by
  have h1 : ∀ s : TemplateMatcher, s.matchingOngoing = false →
      s.wait_for_result = (none, s) := by
    intro s hs
    simp [TemplateMatcher.wait_for_result, hs]
  have h2 : ∀ s : TemplateMatcher,
      (s.wait_for_result).2.matchingOngoing = false := by
    intro s
    by_cases hs : s.matchingOngoing = false
    · rw [h1 s hs]
      exact hs
    · simp [TemplateMatcher.wait_for_result, hs]
  refine ⟨h1, h2, ?_, ?_⟩
  · intro s
    rw [h1 _ (h2 s)]
  · intro s input tmpl m hs
    simp [TemplateMatcher.match_template, hs, h2 s]

theorem c10_witness :
    (TemplateMatcher.new.matchingOngoing = false) ∧
    TemplateMatcher.new.wait_for_result = (none, TemplateMatcher.new) :=
  ⟨rfl, c10_wait_for_result_protocol.1 TemplateMatcher.new rfl⟩

/-- C4 counterexample: on the `2×1` grid `[0.5, 0.7]` with threshold `1`
both cells are accepted and lie within the suppression radius, and
`find_matches` retains the *larger* value `0.7` at `(1, 0)`, not the
claimed better (lower) score `0.5` at `(0, 0)`. -/
theorem c4_counterexample :
    find_matches ⟨[1/2, 7/10], 2, 1⟩ 5 5 1 = [⟨(1, 0), 7/10⟩] ∧
    find_matches ⟨[1/2, 7/10], 2, 1⟩ 5 5 1 ≠ [⟨(0, 0), 1/2⟩] := by
  have h : find_matches ⟨[1/2, 7/10], 2, 1⟩ 5 5 1 = [⟨(1, 0), 7/10⟩] := by
    norm_num [find_matches, match_step, try_merge, isNear, Image.pix,
      show List.range 2 = [0, 1] from rfl, show List.range 1 = [0] from rfl]
  refine ⟨h, ?_⟩
  rw [h]
  simp [Match.mk.injEq, Prod.mk.injEq]

/-- C4 amended: `find_matches` accepts exactly the cells with
`value < threshold`; an accepted cell that lies within the template
footprint of a registered match (the most recently registered such
match, by the reverse search) replaces it exactly when the new value is
strictly greater, so the *larger* of the two values is retained (on
ties the earlier match is kept); an accepted cell near no registered
match is appended as a new match; rejected cells change nothing. -/
theorem c4_keeps_higher_value :
    (∀ (input : Image) (tw th : ℕ) (thr : ℚ),
      ∀ m ∈ find_matches input tw th thr, m.value < thr) ∧
    (∀ (tw th : ℕ) (thr : ℚ) (ms : List Match) (x y : ℕ) (v : ℚ)
      (i : ℕ) (hi : i < ms.length),
      v < thr → isNear tw th x y ms[i] →
      (∀ j, ∀ hj : j < ms.length, i < j → ¬ isNear tw th x y ms[j]) →
      match_step tw th thr ms x y v =
        ms.set i (if ms[i].value < v then ⟨(x, y), v⟩ else ms[i]) ∧
      (if ms[i].value < v then (⟨(x, y), v⟩ : Match)
        else ms[i]).value = max ms[i].value v) ∧
    (∀ (tw th : ℕ) (thr : ℚ) (ms : List Match) (x y : ℕ) (v : ℚ),
      v < thr → (∀ m ∈ ms, ¬ isNear tw th x y m) →
      match_step tw th thr ms x y v = ms ++ [⟨(x, y), v⟩]) ∧
    (∀ (tw th : ℕ) (thr : ℚ) (ms : List Match) (x y : ℕ) (v : ℚ),
      ¬ v < thr → match_step tw th thr ms x y v = ms) := by
  refine ⟨fun input => find_matches_below input, ?_, ?_, ?_⟩
  · intro tw th thr ms x y v i hi hv hnear hlater
    constructor
    · rw [match_step, if_pos hv,
        try_merge_spec tw th x y v ms i hi hnear hlater]
    · split
      · next hlt => simp [le_of_lt hlt, max_eq_right]
      · next hlt => simp [max_eq_left (not_lt.mp hlt)]
  · intro tw th thr ms x y v hv hnone
    rw [match_step, if_pos hv, try_merge_none tw th x y v ms hnone]
  · intro tw th thr ms x y v hv
    rw [match_step, if_neg hv]

theorem c4_witness :
    ((1 : ℚ) < 2) ∧ match_step 5 5 2 [] 0 0 1 = [] ++ [⟨(0, 0), 1⟩] :=
  ⟨by norm_num,
    c4_keeps_higher_value.2.2.1 5 5 2 [] 0 0 1 (by norm_num) (by simp)⟩

/-- C6 counterexample: a `2×2` template against a `1×1` frame does not
yield a typed error value — neither match path returns a `Result` — it
panics (the `u32`/`usize` subtraction `input - template + 1`
underflows). -/
theorem c6_counterexample :
    TemplateMatcher.new.match_template ⟨[0], 1, 1⟩ ⟨[0, 0, 0, 0], 2, 2⟩
        .CrossCorrelation = .panicked "attempt to subtract with overflow" ∧
    TM.match_template (fun q => q) ⟨1, 1, fun _ _ => 0⟩ ⟨2, 2, fun _ _ => 0⟩
      = .panicked "attempt to subtract with overflow" := by
  constructor
  · simp [TemplateMatcher.match_template, TemplateMatcher.new,
      TemplateMatcher.wait_for_result, Panics.bind]
  · simp [TM.match_template]

/-- C6 amended: a match call whose template is wider or taller than the
frame fails fast by *panicking* at the unsigned result-size subtraction
(there is no typed error/result in either backend), and a call whose
template fits returns a score grid of dimensions
`(W - w + 1) × (H - h + 1)` — never smaller than `1 × 1` — whose data
length equals `width * height`. -/
theorem c6_oversized_template_panics :
    (∀ (input tmpl : Image) (method : MatchTemplateMethod),
      (method = .SumOfAbsoluteErrors ∨ method = .SumOfSquaredErrors ∨
        method = .CrossCorrelation) →
      (input.width < tmpl.width ∨ input.height < tmpl.height) →
      TemplateMatcher.new.match_template input tmpl method =
        .panicked "attempt to subtract with overflow") ∧
    (∀ (sqrtf : ℚ → ℚ) (image kernel : Array2),
      (image.h < kernel.h ∨ image.w < kernel.w) →
      TM.match_template sqrtf image kernel =
        .panicked "attempt to subtract with overflow") ∧
    (∀ (input tmpl : Image) (method : MatchTemplateMethod),
      (method = .SumOfAbsoluteErrors ∨ method = .SumOfSquaredErrors ∨
        method = .CrossCorrelation) →
      tmpl.width ≤ input.width → tmpl.height ≤ input.height →
      ∃ s img, TemplateMatcher.new.match_template input tmpl method = .ok s ∧
        (s.wait_for_result).1 = some img ∧
        img.width = input.width - tmpl.width + 1 ∧
        img.height = input.height - tmpl.height + 1 ∧
        1 ≤ img.width ∧ 1 ≤ img.height ∧
        img.data.length = img.width * img.height) := by
  refine ⟨?_, ?_, ?_⟩
  · intro input tmpl method hm hlt
    have hno : ¬(tmpl.width ≤ input.width ∧ tmpl.height ≤ input.height) := by
      omega
    rcases hm with rfl | rfl | rfl <;>
      simp [TemplateMatcher.match_template, TemplateMatcher.new,
        TemplateMatcher.wait_for_result, Panics.bind, hno]
  · intro sqrtf image kernel hlt
    have hno : ¬(kernel.h ≤ image.h ∧ kernel.w ≤ image.w) := by omega
    rw [TM.match_template, if_neg hno]
  · intro input tmpl method hm hw hh
    rw [match_template_fresh input tmpl method hm hw hh]
    refine ⟨dispatchedState method input tmpl, ccorrGrid method input tmpl,
      rfl, ?_, rfl, rfl, ?_, ?_, ?_⟩
    · rw [wait_for_result_dispatched]
    · exact Nat.le_add_left 1 _
    · exact Nat.le_add_left 1 _
    · simp [ccorrGrid, gridData, Nat.mul_comm]

theorem c6_witness :
    ((1 : ℕ) < 2) ∧
    TemplateMatcher.new.match_template ⟨[0], 1, 1⟩ ⟨[0, 0, 0, 0], 2, 2⟩
        .SumOfAbsoluteErrors =
      .panicked "attempt to subtract with overflow" :=
  ⟨by decide, c6_oversized_template_panics.1 ⟨[0], 1, 1⟩ ⟨[0, 0, 0, 0], 2, 2⟩
    _ (Or.inl rfl) (Or.inl (by decide))⟩

/-- C8: on the `n × n` all-ones buffer the summed-area table holds
`(x+1)(y+1)` at every cell, and `subsum_from_integral_arrf32` over any
in-bounds sub-rectangle — including rectangles touching the `x = 0` or
`y = 0` edge, whose out-of-range neighbour lookups contribute zero —
returns the rectangle's area `w * h`. -/
theorem c8_integral_ones (n : ℕ) :
    (∀ y x, y < n → x < n →
      (integral_arr2 (onesArr n)).get y x = ((x : ℚ) + 1) * ((y : ℚ) + 1)) ∧
    (∀ x y w h, 0 < w → 0 < h → x + w ≤ n → y + h ≤ n →
      subsum_from_integral_arrf32 (integral_arr2 (onesArr n)) x y w h =
        (w : ℚ) * (h : ℚ)) := by
  have hget : ∀ y x, y < n → x < n →
      (integral_arr2 (onesArr n)).get y x = ((x : ℚ) + 1) * ((y : ℚ) + 1) := by
    intro y x hy hx
    rw [integral_spec (onesArr n) y x hy hx]
    simp [prefixSum, onesArr, Finset.sum_const, Finset.card_range]
    ring
  have hdims : (integral_arr2 (onesArr n)).h = n ∧
      (integral_arr2 (onesArr n)).w = n := integral_arr2_dims (onesArr n)
  have hgetI : ∀ a b : ℤ, (integral_arr2 (onesArr n)).getI a b =
      if 0 ≤ a ∧ a < (n : ℤ) ∧ 0 ≤ b ∧ b < (n : ℤ) then
        some (((b.toNat : ℚ) + 1) * ((a.toNat : ℚ) + 1))
      else none := by
    intro a b
    rw [Array2.getI, hdims.1, hdims.2]
    split
    · next hc =>
        rw [hget a.toNat b.toNat (by omega) (by omega)]
    · rfl
  refine ⟨hget, ?_⟩
  intro x y w h hw hh hxw hyh
  obtain ⟨w', rfl⟩ : ∃ w', w = w' + 1 := ⟨w - 1, by omega⟩
  obtain ⟨h', rfl⟩ : ∃ h', h = h' + 1 := ⟨h - 1, by omega⟩
  have eab : ∀ a b : ℕ, a + (b + 1) - 1 = a + b := fun a b => by omega
  rcases x with _ | x1 <;> rcases y with _ | y1 <;>
    simp only [subsum_from_integral_arrf32, eab, hgetI] <;>
    rw [hget _ _ (by omega) (by omega)] <;>
    split_ifs <;>
    first
      | (exfalso; omega)
      | (simp only [
            show (((y1 + 1 : ℕ) : ℤ) - 1).toNat = y1 from by omega,
            show (((x1 + 1 : ℕ) : ℤ) - 1).toNat = x1 from by omega,
            show (((x1 + 1 : ℕ) : ℤ) + ((w' + 1 : ℕ) : ℤ) - 1).toNat =
              x1 + 1 + w' from by omega,
            show (((y1 + 1 : ℕ) : ℤ) + ((h' + 1 : ℕ) : ℤ) - 1).toNat =
              y1 + 1 + h' from by omega];
         push_cast; ring)
      | (simp only [
            show (((y1 + 1 : ℕ) : ℤ) - 1).toNat = y1 from by omega,
            show (((0 : ℕ) : ℤ) + ((w' + 1 : ℕ) : ℤ) - 1).toNat = w'
              from by omega,
            show (((y1 + 1 : ℕ) : ℤ) + ((h' + 1 : ℕ) : ℤ) - 1).toNat =
              y1 + 1 + h' from by omega];
         push_cast; ring)
      | (simp only [
            show (((x1 + 1 : ℕ) : ℤ) - 1).toNat = x1 from by omega,
            show (((x1 + 1 : ℕ) : ℤ) + ((w' + 1 : ℕ) : ℤ) - 1).toNat =
              x1 + 1 + w' from by omega,
            show (((0 : ℕ) : ℤ) + ((h' + 1 : ℕ) : ℤ) - 1).toNat = h'
              from by omega];
         push_cast; ring)
      | (push_cast; ring)

theorem c8_witness :
    ((0 : ℕ) < 3) ∧ ((1 : ℕ) < 3) ∧ ((0 : ℕ) + 2 ≤ 3) ∧ ((1 : ℕ) + 2 ≤ 3) ∧
    (integral_arr2 (onesArr 3)).get 1 0 = ((0 : ℚ) + 1) * ((1 : ℚ) + 1) ∧
    subsum_from_integral_arrf32 (integral_arr2 (onesArr 3)) 0 1 2 2 =
      (2 : ℚ) * (2 : ℚ) :=
  ⟨by decide, by decide, by decide, by decide,
    (c8_integral_ones 3).1 1 0 (by decide) (by decide),
    (c8_integral_ones 3).2 0 1 2 2 (by decide) (by decide) (by decide)
      (by decide)⟩

/-- C7: with a fitting, non-empty template the CPU `match_template`
returns the `(W - w + 1) × (H - h + 1)` grid in which every cell is the
raw valid-mode cross-correlation value normalised by the local
frame-patch statistics (fetched from the integral images of the frame
and the squared frame) and the template statistics, exactly as
`score = (raw − local_sum·template_mean) / sqrt(local_var·template_var)
/ template_area`. -/
theorem c7_cpu_normalization (sqrtf : ℚ → ℚ) (image kernel : Array2)
    (hkh : 0 < kernel.h) (hkw : 0 < kernel.w)
    (hh : kernel.h ≤ image.h) (hw : kernel.w ≤ image.w) :
    CpuMatchSpec sqrtf image kernel := by
  unfold CpuMatchSpec TM.match_template
  rw [if_pos ⟨hh, hw⟩]
  refine ⟨_, rfl, rfl, rfl, ?_⟩
  intro y x hy hx
  show (if y < image.h - kernel.h + 1 ∧ x < image.w - kernel.w + 1
      then _ else _) = _
  rw [if_pos ⟨hy, hx⟩]
  rw [subsum_f64_spec image x y kernel.w kernel.h hkw hkh (by omega)
      (by omega),
    subsum_f64_spec (image.map fun v => v * v) x y kernel.w kernel.h hkw hkh
      (by show x + kernel.w ≤ image.w; omega)
      (by show y + kernel.h ≤ image.h; omega)]
  rw [div_div]

theorem c7_witness :
    (0 < (onesArr 1).h) ∧ (0 < (onesArr 1).w) ∧
    ((onesArr 1).h ≤ (onesArr 2).h) ∧ ((onesArr 1).w ≤ (onesArr 2).w) ∧
    CpuMatchSpec (fun q => q) (onesArr 2) (onesArr 1) :=
  ⟨by decide, by decide, by decide, by decide,
    c7_cpu_normalization (fun q => q) (onesArr 2) (onesArr 1)
      (by decide) (by decide) (by decide) (by decide)⟩

/-- C9: both `find_extremes` implementations — the nested raster loops
of `lib.rs` over an `Image` and the single `enumerate()` pass of
`template_matching.rs` over an `Array2` — return the grid's global
minimum and maximum with their locations, keeping the first-encountered
raster location on ties, for every non-empty grid of values within the
finite `f32` range. -/
theorem c9_find_extremes_spec (img : Image) (a : Array2)
    (hw : 0 < img.width) (hh : 0 < img.height)
    (hbound : ∀ x y, x < img.width → y < img.height →
      f32MIN ≤ img.pix x y ∧ img.pix x y ≤ f32MAX)
    (haw : 0 < a.w) (hah : 0 < a.h)
    (habound : ∀ x y, x < a.w → y < a.h →
      f32MIN ≤ a.get y x ∧ a.get y x ≤ f32MAX) :
    ExtremesSpec img.width img.height img.pix (find_extremes img) ∧
    ExtremesSpec a.w a.h (fun x y => a.get y x) (TM.find_extremes a) := by
  constructor
  · exact grid_extremes_spec img.width img.height img.pix hw hh hbound _
      (by rw [find_extremes_enum]; rfl)
  · exact grid_extremes_spec a.w a.h (fun x y => a.get y x) haw hah habound _
      (by rw [tm_find_extremes_enum]; rfl)

theorem c9_witness :
    (0 < (2 : ℕ)) ∧ (0 < (1 : ℕ)) ∧
    ExtremesSpec 2 1 (Image.pix ⟨[3, 5], 2, 1⟩)
      (find_extremes ⟨[3, 5], 2, 1⟩) := by
  refine ⟨by decide, by decide, ?_⟩
  refine (c9_find_extremes_spec ⟨[3, 5], 2, 1⟩
    ⟨1, 2, fun y x => if x = 0 then 3 else 5⟩
    (by decide) (by decide) ?_ (by decide) (by decide) ?_).1
  · intro x y hx hy
    interval_cases x <;> interval_cases y <;>
      constructor <;> norm_num [Image.pix, f32MAX, f32MIN]
  · intro x y hx hy
    interval_cases x <;> interval_cases y <;>
      constructor <;> norm_num [f32MAX, f32MIN]

/-- C1: on the frame = template = the `2×1` image `[0, 2]`, the GPU
`CCOEFF_NORMED` path returns the unnormalised value `2.0` (the missing
normalisation of `ccoeff`), while the CPU backend returns the
Pearson-normalised `1.0` (for any square root with `sqrt 1 = 1`, which
the `f64` square root satisfies exactly): the two grids differ by `1`,
far beyond the claimed `1e-3` tolerance. -/
theorem c1_backend_disagreement :
    match_template ⟨[0, 2], 2, 1⟩ ⟨[0, 2], 2, 1⟩ .CCOEFF_NORMED =
      .ok ⟨[2], 1, 1⟩ ∧
    (∀ sqrtf : ℚ → ℚ, sqrtf 1 = 1 →
      ∃ g, TM.match_template sqrtf
          ⟨1, 2, fun _ x => if x = 0 then (0 : ℚ) else 2⟩
          ⟨1, 2, fun _ x => if x = 0 then (0 : ℚ) else 2⟩ = .ok g ∧
        g.get 0 0 = 1) ∧
    ¬ |(2 : ℚ) - 1| ≤ 1 / 1000 := by
  refine ⟨?_, ?_, by norm_num⟩
  · have hstep : match_template ⟨[0, 2], 2, 1⟩ ⟨[0, 2], 2, 1⟩
        .CCOEFF_NORMED = ccoeff ⟨[0, 2], 2, 1⟩ ⟨[0, 2], 2, 1⟩ true := rfl
    rw [hstep, ccoeff_eval _ _ true (by decide) (by decide)]
    congr 1
    norm_num [ccoeffResult, ccorrGrid, gridData, shaderCell, meanSubtracted,
      image_mean, Image.const, Image.pix, Image.add, Image.mulScalar,
      Finset.sum_range_succ, Finset.sum_range_zero,
      show List.range 1 = [0] from rfl]
  · intro sqrtf h1
    have s1 : subsum_from_integral_arrf64
        (integral_arr2 ⟨1, 2, fun _ x => if x = 0 then (0 : ℚ) else 2⟩)
        0 0 2 1 =
        rectSum (⟨1, 2, fun _ x => if x = 0 then (0 : ℚ) else 2⟩ :
          Array2).get 0 0 2 1 :=
      subsum_f64_spec _ 0 0 2 1 (by decide) (by decide) (by decide)
        (by decide)
    have s2 : subsum_from_integral_arrf64
        (integral_arr2 (⟨1, 2, fun _ x =>
          if x = 0 then (0 : ℚ) else if x = 0 then 0 else 4⟩ : Array2))
        0 0 2 1 =
        rectSum (⟨1, 2, fun _ x =>
          if x = 0 then (0 : ℚ) else if x = 0 then 0 else 4⟩ :
            Array2).get 0 0 2 1 :=
      subsum_f64_spec _ 0 0 2 1 (by decide) (by decide) (by decide)
        (by decide)
    unfold TM.match_template
    rw [if_pos (by decide)]
    refine ⟨_, rfl, ?_⟩
    norm_num [s1, s2, rectSum, fftcorrelate_valid, Array2.sum, Array2.map,
      Finset.sum_range_succ, Finset.sum_range_zero, h1]

theorem c1_witness :
    ((fun _ : ℚ => (1 : ℚ)) 1 = 1) ∧
    (∃ g, TM.match_template (fun _ : ℚ => (1 : ℚ))
        ⟨1, 2, fun _ x => if x = 0 then (0 : ℚ) else 2⟩
        ⟨1, 2, fun _ x => if x = 0 then (0 : ℚ) else 2⟩ = .ok g ∧
      g.get 0 0 = 1) :=
  ⟨rfl, c1_backend_disagreement.2.1 (fun _ : ℚ => (1 : ℚ)) rfl⟩
